import Mathlib

/-!
Verification of the explicit-free-list dynamic memory allocator (`mm.c`).

The allocator is shallowly embedded: the heap is a word memory indexed by
byte addresses (all source loads/stores are word stores at word-aligned
addresses), payload pointers are natural-number byte addresses with `0` as
`NULL`, and the allocator's global cursors (`heap_listp`, `free_listp`)
together with the simulated `mem_sbrk` bounds form an explicit state record.
`size_t` arithmetic that can wrap is taken modulo `2 ^ 64` exactly where the
source can wrap (the adjusted-size computation and `place`'s remainder
guard); pointer-offset arithmetic uses `Nat` arithmetic, which agrees with
the source on all in-bounds addresses.  The word width is fixed at
`W = 8`, `D = 16` (the 64-bit layout the specification's scenarios assume,
with `int` being 32 bits wide).

Loops (`find_fit`, the checker walks) take explicit fuel; a `none` result
means the fuel ran out and makes no statement about the source, whose loops
can diverge on corrupted heaps.
-/

namespace MM

/-- Word size in bytes (`WSIZE = sizeof(void *)`, 64-bit platform). -/
def WSIZE : Nat := 8

/-- Double-word size in bytes (`DSIZE = 2 * WSIZE`). -/
def DSIZE : Nat := 2 * WSIZE

/-- Heap-extension granularity (`CHUNKSIZE = 1 << 12`). -/
def CHUNKSIZE : Nat := 2 ^ 12

/-- Word memory: byte address to stored word.  Every load/store in the
source is an `uintptr_t` load/store at a word-aligned address. -/
def Mem : Type := Nat → Nat

/-- `GET(p)`: read the word at address `p`. -/
def GET (m : Mem) (p : Nat) : Nat := m p

/-- `PUT(p, val)`: write the word `val` at address `p`. -/
def PUT (m : Mem) (p v : Nat) : Mem := fun a => if a = p then v else m a

/-- `PACK(size, alloc) = size | alloc`. -/
def PACK (size alloc : Nat) : Nat := size ||| alloc

/-- `GET_SIZE(p) = GET(p) & ~(DSIZE-1)`: clear the low four bits,
i.e. round down to a multiple of `DSIZE`. -/
def GET_SIZE (m : Mem) (p : Nat) : Nat := GET m p / DSIZE * DSIZE

/-- `GET_ALLOC(p) = GET(p) & 0x1`. -/
def GET_ALLOC (m : Mem) (p : Nat) : Nat := GET m p % 2

/-- `HDRP(bp) = bp - WSIZE`. -/
def HDRP (bp : Nat) : Nat := bp - WSIZE

/-- `FTRP(bp) = bp + GET_SIZE(HDRP(bp)) - DSIZE`. -/
def FTRP (m : Mem) (bp : Nat) : Nat := bp + GET_SIZE m (HDRP bp) - DSIZE

/-- `NEXT_BLKP(bp) = bp + GET_SIZE(bp - WSIZE)`. -/
def NEXT_BLKP (m : Mem) (bp : Nat) : Nat := bp + GET_SIZE m (bp - WSIZE)

/-- `PREV_BLKP(bp) = bp - GET_SIZE(bp - DSIZE)`. -/
def PREV_BLKP (m : Mem) (bp : Nat) : Nat := bp - GET_SIZE m (bp - DSIZE)

/-- `GET_PREV_PTR(bp)`: the free-list predecessor link, stored at `bp`. -/
def GET_PREV_PTR (m : Mem) (bp : Nat) : Nat := GET m bp

/-- `GET_NEXT_PTR(bp)`: the free-list successor link, stored at `bp + WSIZE`. -/
def GET_NEXT_PTR (m : Mem) (bp : Nat) : Nat := GET m (bp + WSIZE)

/-- Allocator state: the word memory, the simulated `mem_sbrk` region
(`lo` = heap base, `brk` = current top, `maxHeap` = capacity), the two
global cursors and a counter of heap-extension requests. -/
structure AState where
  mem : Mem
  lo : Nat
  brk : Nat
  maxHeap : Nat
  heap_listp : Nat
  free_listp : Nat
  extensions : Nat

/-- `mem_sbrk(incr)`: extend the heap by `incr` bytes, returning the old
break on success and `none` (for `(void *)-1`) on failure.  Every call
counts as an extension request. -/
def mem_sbrk (st : AState) (incr : Nat) : AState × Option Nat :=
  let st1 := { st with extensions := st.extensions + 1 }
  if st.brk + incr ≤ st.maxHeap then
    ({ st1 with brk := st.brk + incr }, some st.brk)
  else (st1, none)

/-- `insert_in_free_list(bp)`: LIFO insertion at the head of the free list
(`SET_NEXT_PTR(bp, free_listp); SET_PREV_PTR(free_listp, bp);
SET_PREV_PTR(bp, NULL); free_listp = bp`). -/
def insert_in_free_list (st : AState) (bp : Nat) : AState :=
  let m1 := PUT st.mem (bp + WSIZE) st.free_listp
  let m2 := PUT m1 st.free_listp bp
  let m3 := PUT m2 bp 0
  { st with mem := m3, free_listp := bp }

/-- `remove_from_free_list(bp)`: splice `bp` out of the doubly linked list.
The second statement re-reads `bp`'s links from memory, exactly as the
source expression `SET_PREV_PTR(GET_NEXT_PTR(bp), GET_PREV_PTR(bp))` does
after the first statement has executed. -/
def remove_from_free_list (st : AState) (bp : Nat) : AState :=
  let prv := GET_PREV_PTR st.mem bp
  let nxt := GET_NEXT_PTR st.mem bp
  let st1 :=
    if prv ≠ 0 then { st with mem := PUT st.mem (prv + WSIZE) nxt }
    else { st with free_listp := nxt }
  { st1 with mem := PUT st1.mem (GET_NEXT_PTR st1.mem bp) (GET_PREV_PTR st1.mem bp) }

/-- Events recorded by the traced operations, at the granularity of the
source statements of `coalesce` and `place`: a boundary-tag store, a
free-list removal, a free-list insertion. -/
inductive Ev where
  | put (addr val : Nat)
  | rem (bp : Nat)
  | ins (bp : Nat)
  deriving DecidableEq, Repr

/-- `coalesce(bp)`, traced.  Returns the final state, the (possibly
relocated) payload pointer, and the event trace.  Every memory read happens
against the memory current at the corresponding source statement; in
particular the footer store address `FTRP(bp)` is computed from the header
just written, and in the both-free case `NEXT_BLKP(bp)` (second removal)
and `PREV_BLKP(bp)` (the reassignment of `bp`) are re-evaluated after the
preceding removals, as in the source. -/
def coalesceT (st : AState) (bp : Nat) : AState × Nat × List Ev :=
  let na := GET_ALLOC st.mem (HDRP (NEXT_BLKP st.mem bp))
  let pa := GET_ALLOC st.mem (FTRP st.mem (PREV_BLKP st.mem bp))
  let size := GET_SIZE st.mem (HDRP bp)
  if pa ≠ 0 ∧ na ≠ 0 then
    (insert_in_free_list st bp, bp, [.ins bp])
  else if pa ≠ 0 ∧ na = 0 then
    let size := size + GET_SIZE st.mem (HDRP (NEXT_BLKP st.mem bp))
    let st1 := remove_from_free_list st (NEXT_BLKP st.mem bp)
    let st2 := { st1 with mem := PUT st1.mem (HDRP bp) (PACK size 0) }
    let fa := FTRP st2.mem bp
    let st3 := { st2 with mem := PUT st2.mem fa (PACK size 0) }
    (insert_in_free_list st3 bp, bp,
      [.rem (NEXT_BLKP st.mem bp), .put (HDRP bp) (PACK size 0), .put fa (PACK size 0), .ins bp])
  else if pa = 0 ∧ na ≠ 0 then
    let size := size + GET_SIZE st.mem (HDRP (PREV_BLKP st.mem bp))
    let bp1 := PREV_BLKP st.mem bp
    let st1 := remove_from_free_list st bp1
    let st2 := { st1 with mem := PUT st1.mem (HDRP bp1) (PACK size 0) }
    let fa := FTRP st2.mem bp1
    let st3 := { st2 with mem := PUT st2.mem fa (PACK size 0) }
    (insert_in_free_list st3 bp1, bp1,
      [.rem bp1, .put (HDRP bp1) (PACK size 0), .put fa (PACK size 0), .ins bp1])
  else if pa = 0 ∧ na = 0 then
    let size := size + GET_SIZE st.mem (HDRP (PREV_BLKP st.mem bp))
      + GET_SIZE st.mem (HDRP (NEXT_BLKP st.mem bp))
    let st1 := remove_from_free_list st (PREV_BLKP st.mem bp)
    let nb1 := NEXT_BLKP st1.mem bp
    let st2 := remove_from_free_list st1 nb1
    let bp1 := PREV_BLKP st2.mem bp
    let st3 := { st2 with mem := PUT st2.mem (HDRP bp1) (PACK size 0) }
    let fa := FTRP st3.mem bp1
    let st4 := { st3 with mem := PUT st3.mem fa (PACK size 0) }
    (insert_in_free_list st4 bp1, bp1,
      [.rem (PREV_BLKP st.mem bp), .rem nb1, .put (HDRP bp1) (PACK size 0), .put fa (PACK size 0), .ins bp1])
  else
    (insert_in_free_list st bp, bp, [.ins bp])

/-- Untraced `coalesce`: final state and returned pointer. -/
def coalesce (st : AState) (bp : Nat) : AState × Nat :=
  ((coalesceT st bp).1, (coalesceT st bp).2.1)

/-- `extend_heap(words)`: round the request up to an even number of words,
call `mem_sbrk`, lay down the new free block's tags and the new epilogue,
and coalesce.  Returns `0` (NULL) if `mem_sbrk` refuses. -/
def extend_heap (st : AState) (words : Nat) : AState × Nat :=
  let size := if words % 2 = 1 then (words + 1) * WSIZE else words * WSIZE
  match mem_sbrk st size with
  | (st1, none) => (st1, 0)
  | (st1, some bp) =>
    let m1 := PUT st1.mem (HDRP bp) (PACK size 0)
    let m2 := PUT m1 (FTRP m1 bp) (PACK size 0)
    let m3 := PUT m2 (HDRP (NEXT_BLKP m2 bp)) (PACK 0 1)
    coalesce { st1 with mem := m3 } bp

/-- The adjusted block size computed by `mm_malloc` (and, by the verbatim
same expression, by `mm_realloc`): `2 * DSIZE` for requests up to `DSIZE`,
otherwise `DSIZE * ((size + DSIZE + (DSIZE - 1)) / DSIZE)` in `size_t`
arithmetic, i.e. modulo `2 ^ 64`. -/
def adjust (size : Nat) : Nat :=
  if size ≤ DSIZE then 2 * DSIZE
  else DSIZE * ((size + DSIZE + (DSIZE - 1)) % 2 ^ 64 / DSIZE)

/-- The `find_fit` loop with explicit fuel, starting at `bp`:
`for (bp = free_listp; GET_ALLOC(HDRP(bp)) == 0; bp = GET_NEXT_PTR(bp))
   if (asize <= GET_SIZE(HDRP(bp))) return bp;`
`some (some b)` is a hit, `some none` is the source's NULL return, `none`
means the fuel ran out. -/
def find_fit_aux (m : Mem) (asize : Nat) : Nat → Nat → Option (Option Nat)
  | 0, _ => none
  | fuel + 1, bp =>
    if GET_ALLOC m (HDRP bp) = 0 then
      if asize ≤ GET_SIZE m (HDRP bp) then some (some bp)
      else find_fit_aux m asize fuel (GET_NEXT_PTR m bp)
    else some none

/-- `find_fit(asize)` from the free-list head. -/
def find_fit (st : AState) (fuel asize : Nat) : Option (Option Nat) :=
  find_fit_aux st.mem asize fuel st.free_listp

/-- The chain of blocks visited by the `find_fit` walk: the maximal
`alloc = 0` prefix of the `next_link` orbit starting at `bp` (up to
`fuel` steps). -/
def free_chain (m : Mem) : Nat → Nat → List Nat
  | 0, _ => []
  | fuel + 1, bp =>
    if GET_ALLOC m (HDRP bp) = 0 then bp :: free_chain m fuel (GET_NEXT_PTR m bp)
    else []

/-- `size_t` subtraction: `a - b` computed modulo `2 ^ 64`. -/
def subW (a b : Nat) : Nat := (a + (2 ^ 64 - b % 2 ^ 64)) % 2 ^ 64

/-- `place(bp, asize)`, traced.  The split guard `(csize - asize) >=
4 * WSIZE` is `size_t` subtraction, hence `subW`.  In the split path the
source re-evaluates `NEXT_BLKP(bp)` after the removal, reading the header
written two statements earlier. -/
def placeT (st : AState) (bp asize : Nat) : AState × List Ev :=
  let csize := GET_SIZE st.mem (HDRP bp)
  if 4 * WSIZE ≤ subW csize asize then
    let st1 := { st with mem := PUT st.mem (HDRP bp) (PACK asize 1) }
    let fa := FTRP st1.mem bp
    let st2 := { st1 with mem := PUT st1.mem fa (PACK asize 1) }
    let st3 := remove_from_free_list st2 bp
    let bp1 := NEXT_BLKP st3.mem bp
    let st4 := { st3 with mem := PUT st3.mem (HDRP bp1) (PACK (subW csize asize) 0) }
    let fa1 := FTRP st4.mem bp1
    let st5 := { st4 with mem := PUT st4.mem fa1 (PACK (subW csize asize) 0) }
    let r := coalesceT st5 bp1
    (r.1, [.put (HDRP bp) (PACK asize 1), .put fa (PACK asize 1), .rem bp,
           .put (HDRP bp1) (PACK (subW csize asize) 0), .put fa1 (PACK (subW csize asize) 0)] ++ r.2.2)
  else
    let st1 := { st with mem := PUT st.mem (HDRP bp) (PACK csize 1) }
    let fa := FTRP st1.mem bp
    let st2 := { st1 with mem := PUT st1.mem fa (PACK csize 1) }
    let st3 := remove_from_free_list st2 bp
    (st3, [.put (HDRP bp) (PACK csize 1), .put fa (PACK csize 1), .rem bp])

/-- Untraced `place`. -/
def place (st : AState) (bp asize : Nat) : AState := (placeT st bp asize).1

/-- `mm_malloc(size)`: returns the new state and the payload pointer
(`0` for NULL); `none` only when the `find_fit` fuel ran out. -/
def mm_malloc (fuel : Nat) (st : AState) (size : Nat) : Option (AState × Nat) :=
  if size = 0 then some (st, 0)
  else
    let asize := adjust size
    match find_fit st fuel asize with
    | none => none
    | some (some bp) => some (place st bp asize, bp)
    | some none =>
      let extendsize := max asize CHUNKSIZE
      let r := extend_heap st (extendsize / WSIZE)
      if r.2 = 0 then some (r.1, 0)
      else some (place r.1 r.2 asize, r.2)

/-- `mm_free(bp)`: no-op on NULL; otherwise clear the allocation bit in
header and footer and coalesce. -/
def mm_free (st : AState) (bp : Nat) : AState :=
  if bp = 0 then st
  else
    let size := GET_SIZE st.mem (HDRP bp)
    let m1 := PUT st.mem (HDRP bp) (PACK size 0)
    let m2 := PUT m1 (FTRP m1 bp) (PACK size 0)
    (coalesce { st with mem := m2 } bp).1

/-- `mm_init()`: lay down padding, prologue (header, two NULL links,
footer) and epilogue, point both cursors at the prologue payload, then
extend by `CHUNKSIZE`.  Returns `-1` on either failure, `0` on success. -/
def mm_init (st : AState) : AState × Int :=
  match mem_sbrk st (6 * WSIZE) with
  | (st1, none) => (st1, -1)
  | (st1, some base) =>
    let m := PUT st1.mem base 0
    let m := PUT m (base + 1 * WSIZE) (PACK (2 * DSIZE) 1)
    let m := PUT m (base + 2 * WSIZE) 0
    let m := PUT m (base + 3 * WSIZE) 0
    let m := PUT m (base + 4 * WSIZE) (PACK (2 * DSIZE) 1)
    let m := PUT m (base + 5 * WSIZE) (PACK 0 1)
    let hl := base + 2 * WSIZE
    let st2 := { st1 with mem := m, heap_listp := hl, free_listp := hl }
    let r := extend_heap st2 (CHUNKSIZE / WSIZE)
    if r.2 = 0 then (r.1, -1) else (r.1, 0)

/-- The value of `(int)size` on an LP64 platform: the low 32 bits of the
`size_t` value, reinterpreted as a signed 32-bit integer. -/
def toInt32 (n : Nat) : Int :=
  if n % 2 ^ 32 < 2 ^ 31 then (n % 2 ^ 32 : Nat) else (n % 2 ^ 32 : Nat) - 2 ^ 32

/-- `memcpy(dst, src, n)` at word granularity (`n` is always a multiple of
the word size on every path the source takes): copy `n / 8` words. -/
def memcpyW (m : Mem) (dst src : Nat) : Nat → Mem
  | 0 => m
  | k + 1 => PUT (memcpyW m dst src k) (dst + WSIZE * k) (GET m (src + WSIZE * k))

/-- The body of `mm_realloc` past the `(int)size` sign tests (the
`size > 0` branch of the source): malloc-on-NULL, return-unchanged,
in-place forward growth, or allocate-copy-free.  Note the source performs
`memcpy(new_ptr, bp, oldsize)` and `mm_free(bp)` without checking
`new_ptr` for NULL. -/
def realloc_body (fuel : Nat) (st : AState) (bp size : Nat) : Option (AState × Nat) :=
  if bp = 0 then mm_malloc fuel st size
  else
    let oldsize := GET_SIZE st.mem (HDRP bp)
    let asize := adjust size
    if asize ≤ oldsize then some (st, bp)
    else
      let next_alloc := GET_ALLOC st.mem (HDRP (NEXT_BLKP st.mem bp))
      let csize := oldsize + GET_SIZE st.mem (HDRP (NEXT_BLKP st.mem bp))
      if next_alloc = 0 ∧ asize ≤ csize then
        let st1 := remove_from_free_list st (NEXT_BLKP st.mem bp)
        let st2 := { st1 with mem := PUT st1.mem (HDRP bp) (PACK csize 1) }
        let st3 := { st2 with mem := PUT st2.mem (FTRP st2.mem bp) (PACK csize 1) }
        some (st3, bp)
      else
        match mm_malloc fuel st size with
        | none => none
        | some (st1, new_ptr) =>
          let st2 := { st1 with mem := memcpyW st1.mem new_ptr bp (oldsize / WSIZE) }
          some (mm_free st2 bp, new_ptr)

/-- `mm_realloc(bp, size)`: the `(int)size < 0`, `(int)size == 0`,
`size > 0` branch chain of the source, then `realloc_body`. -/
def mm_realloc (fuel : Nat) (st : AState) (bp size : Nat) : Option (AState × Nat) :=
  if toInt32 size < 0 then some (st, 0)
  else if toInt32 size = 0 then some (mm_free st bp, 0)
  else if 0 < size then realloc_body fuel st bp size
  else some (st, 0)

/-! ## The consistency checker's free-list pass

`checkheap` (verbose or not) walks the free list from `free_listp` to the
prologue.  The diagnostics it can emit are modelled as values; the pass
returns the list of diagnostics in emission order.  The reads are modelled
exactly as the source performs them: the coalescing check reads
`GET_ALLOC(PREV_BLKP(bp))` and `GET_ALLOC(NEXT_BLKP(bp))` — the *payload*
words of the neighbors, not their boundary tags — and the link-validity
checks read `GET_PREV_PTR(HDRP(bp))` and `GET_NEXT_PTR(HDRP(bp))` — the
words at offsets `0` and `WSIZE` from the *header*, not from the payload. -/

/-- Diagnostics the checker can emit. -/
inductive Diag where
  | allocInFreeList (bp : Nat)
  | escapedCoalescing (bp : Nat)
  | prevPtrNotFree (bp : Nat)
  | nextPtrNotFree (bp : Nat)
  deriving DecidableEq, Repr

/-- The diagnostics emitted for one visited block of the free-list walk
(`checkheap`, first loop). -/
def flPassBlock (st : AState) (bp : Nat) : List Diag :=
  (if GET_ALLOC st.mem (HDRP bp) ≠ 0 then [.allocInFreeList bp] else [])
  ++ (if GET_ALLOC st.mem (PREV_BLKP st.mem bp) ≠ 1 ∨ GET_ALLOC st.mem (NEXT_BLKP st.mem bp) ≠ 1 then
        [.escapedCoalescing bp] else [])
  ++ (if bp ≠ st.free_listp ∧ GET_ALLOC st.mem (GET_PREV_PTR st.mem (HDRP bp)) ≠ 0 then
        [.prevPtrNotFree bp] else [])
  ++ (if GET_ALLOC st.mem (GET_NEXT_PTR st.mem (HDRP bp)) ≠ 0 then [.nextPtrNotFree bp] else [])

/-- The free-list pass of `checkheap`: walk `next_link` from `bp` until the
prologue (`heap_listp`), with fuel. -/
def flPass (st : AState) : Nat → Nat → List Diag
  | 0, _ => []
  | fuel + 1, bp =>
    if bp = st.heap_listp then []
    else flPassBlock st bp ++ flPass st fuel (GET_NEXT_PTR st.mem bp)

/-- The checker's free-list pass from the list head. -/
def checkFreeListPass (st : AState) (fuel : Nat) : List Diag :=
  flPass st fuel st.free_listp

/-! ## Write footprints

The addresses written by `mm_free` (directly and through `coalesce`,
`remove_from_free_list` and `insert_in_free_list`), mirrored statement by
statement.  Each entry is either a boundary tag of the merged region or a
free-list link word (offset `0` or `WSIZE` into a payload): `remove`
writes the `next` slot of the removed block's list predecessor and the
`prev` slot of its list successor; `insert` writes both link slots of the
inserted block and the `prev` slot of the old list head. -/

/-- Addresses written by `remove_from_free_list st bp`. -/
def remove_writes (st : AState) (bp : Nat) : List Nat :=
  let prv := GET_PREV_PTR st.mem bp
  let st1 :=
    if prv ≠ 0 then { st with mem := PUT st.mem (prv + WSIZE) (GET_NEXT_PTR st.mem bp) }
    else { st with free_listp := GET_NEXT_PTR st.mem bp }
  (if prv ≠ 0 then [prv + WSIZE] else []) ++ [GET_NEXT_PTR st1.mem bp]

/-- Addresses written by `insert_in_free_list st bp`. -/
def insert_writes (st : AState) (bp : Nat) : List Nat :=
  [bp + WSIZE, st.free_listp, bp]

/-- Addresses written by `coalesce st bp`, mirroring `coalesceT`. -/
def coalesce_writes (st : AState) (bp : Nat) : List Nat :=
  let na := GET_ALLOC st.mem (HDRP (NEXT_BLKP st.mem bp))
  let pa := GET_ALLOC st.mem (FTRP st.mem (PREV_BLKP st.mem bp))
  let size := GET_SIZE st.mem (HDRP bp)
  if pa ≠ 0 ∧ na ≠ 0 then insert_writes st bp
  else if pa ≠ 0 ∧ na = 0 then
    let size := size + GET_SIZE st.mem (HDRP (NEXT_BLKP st.mem bp))
    let st1 := remove_from_free_list st (NEXT_BLKP st.mem bp)
    let st2 := { st1 with mem := PUT st1.mem (HDRP bp) (PACK size 0) }
    let fa := FTRP st2.mem bp
    let st3 := { st2 with mem := PUT st2.mem fa (PACK size 0) }
    remove_writes st (NEXT_BLKP st.mem bp) ++ [HDRP bp, fa] ++ insert_writes st3 bp
  else if pa = 0 ∧ na ≠ 0 then
    let size := size + GET_SIZE st.mem (HDRP (PREV_BLKP st.mem bp))
    let bp1 := PREV_BLKP st.mem bp
    let st1 := remove_from_free_list st bp1
    let st2 := { st1 with mem := PUT st1.mem (HDRP bp1) (PACK size 0) }
    let fa := FTRP st2.mem bp1
    let st3 := { st2 with mem := PUT st2.mem fa (PACK size 0) }
    remove_writes st bp1 ++ [HDRP bp1, fa] ++ insert_writes st3 bp1
  else if pa = 0 ∧ na = 0 then
    let size := size + GET_SIZE st.mem (HDRP (PREV_BLKP st.mem bp))
      + GET_SIZE st.mem (HDRP (NEXT_BLKP st.mem bp))
    let st1 := remove_from_free_list st (PREV_BLKP st.mem bp)
    let nb1 := NEXT_BLKP st1.mem bp
    let st2 := remove_from_free_list st1 nb1
    let bp1 := PREV_BLKP st2.mem bp
    let st3 := { st2 with mem := PUT st2.mem (HDRP bp1) (PACK size 0) }
    let fa := FTRP st3.mem bp1
    let st4 := { st3 with mem := PUT st3.mem fa (PACK size 0) }
    remove_writes st (PREV_BLKP st.mem bp) ++ remove_writes st1 nb1
      ++ [HDRP bp1, fa] ++ insert_writes st4 bp1
  else insert_writes st bp

/-- Addresses written by `mm_free st bp`: the freed block's own tags, then
`coalesce`'s writes. -/
def mm_free_writes (st : AState) (bp : Nat) : List Nat :=
  if bp = 0 then []
  else
    let size := GET_SIZE st.mem (HDRP bp)
    let m1 := PUT st.mem (HDRP bp) (PACK size 0)
    let m2 := PUT m1 (FTRP m1 bp) (PACK size 0)
    [HDRP bp, FTRP m1 bp] ++ coalesce_writes { st with mem := m2 } bp

/-! ## Specification-side operations

These definitions follow the wording of the specification (§4.5, §4.6,
§4.7): widening a block writes the header first and places the footer
according to the *new* size; marking a block writes header then footer with
the given allocation bit.  The claims compare the source-derived operations
against compositions of these. -/

/-- Modelled from the spec (§4.6): widen the free block at `x` to `newsize`,
header before footer, the footer placed by the new size. -/
def spec_widen (st : AState) (x newsize : Nat) : AState :=
  let m1 := PUT st.mem (HDRP x) (PACK newsize 0)
  { st with mem := PUT m1 (x + newsize - DSIZE) (PACK newsize 0) }

/-- Modelled from the spec (§4.5, §4.7): write an allocated header and
footer of size `newsize` over the block at `x`, header first. -/
def spec_mark_alloc (st : AState) (x newsize : Nat) : AState :=
  let m1 := PUT st.mem (HDRP x) (PACK newsize 1)
  { st with mem := PUT m1 (x + newsize - DSIZE) (PACK newsize 1) }

/-- Modelled from the spec (§4.5): write a free header and footer of size
`newsize` at `x`, header first. -/
def spec_mark_free (st : AState) (x newsize : Nat) : AState :=
  let m1 := PUT st.mem (HDRP x) (PACK newsize 0)
  { st with mem := PUT m1 (x + newsize - DSIZE) (PACK newsize 0) }

/-! ## Concrete states used as witnesses

A fresh allocator over a 4144-byte heap region based at address 800
(exactly the 48-byte preamble plus one `CHUNKSIZE` chunk, so any further
extension fails), initialized, then driven by one or two `mm_malloc 100`
calls.  After `mm_init`, the prologue payload is at 816 and the single
free block's payload at 848 with size 4096; `mm_malloc 100` returns 848
(block size 128); a second `mm_malloc 100` returns 976. -/

/-- The empty allocator over `[800, 4944)`. -/
def st0 : AState :=
  { mem := fun _ => 0, lo := 800, brk := 800, maxHeap := 4944,
    heap_listp := 0, free_listp := 0, extensions := 0 }

/-- The heap after a successful `mm_init`. -/
def stInit : AState := (mm_init st0).1

/-- `stInit` after `p = mm_malloc(100)` (returns payload 848, block size 128). -/
def stP : AState := ((mm_malloc 10 stInit 100).getD (stInit, 0)).1

/-- `stP` after a second `mm_malloc(100)` (returns payload 976), so 848's
forward neighbor is allocated. -/
def stQ : AState := ((mm_malloc 10 stP 100).getD (stP, 0)).1

/-! ## Boundary-tag arithmetic lemmas -/

theorem GET_PUT_self (m : Mem) (p v : Nat) : GET (PUT m p v) p = v := by
  simp [GET, PUT]

theorem GET_PUT_of_ne (m : Mem) (p v a : Nat) (h : a ≠ p) :
    GET (PUT m p v) a = GET m a := by
  simp [GET, PUT, h]

theorem lor_one_of_even (s : Nat) (h : 2 ∣ s) : s ||| 1 = s + 1 := by
  obtain ⟨k, rfl⟩ := h
  have h1 : (2 : Nat) * k = 2 ^ 1 * k := by norm_num
  rw [h1, ← Nat.mul_add_lt_is_or (by norm_num : (1 : Nat) < 2 ^ 1) k]

theorem PACK_zero (s : Nat) : PACK s 0 = s := Nat.or_zero s

theorem PACK_one (s : Nat) (h : 2 ∣ s) : PACK s 1 = s + 1 :=
  lor_one_of_even s h

theorem DSIZE_dvd_GET_SIZE (m : Mem) (p : Nat) : DSIZE ∣ GET_SIZE m p :=
  Dvd.intro (GET m p / DSIZE) (Nat.mul_comm _ _)

theorem GET_SIZE_eq (m : Mem) (p : Nat) : GET_SIZE m p = GET m p / DSIZE * DSIZE := rfl

theorem div_mul_of_dvd (s : Nat) (h : DSIZE ∣ s) : s / DSIZE * DSIZE = s :=
  Nat.div_mul_cancel h

theorem GET_SIZE_PUT_pack0 (m : Mem) (p s : Nat) (h : DSIZE ∣ s) :
    GET_SIZE (PUT m p (PACK s 0)) p = s := by
  rw [GET_SIZE_eq, GET_PUT_self, PACK_zero, div_mul_of_dvd s h]

theorem GET_SIZE_PUT_pack1 (m : Mem) (p s : Nat) (h : DSIZE ∣ s) :
    GET_SIZE (PUT m p (PACK s 1)) p = s := by
  have h2 : 2 ∣ s := dvd_trans (by decide) h
  rw [GET_SIZE_eq, GET_PUT_self, PACK_one s h2]
  obtain ⟨k, rfl⟩ := h
  have hd : (DSIZE * k + 1) / DSIZE = k := by
    rw [Nat.mul_add_div (by decide : 0 < DSIZE)]
    simp [Nat.div_eq_of_lt (by decide : 1 < DSIZE)]
  rw [hd, Nat.mul_comm]

theorem FTRP_PUT_pack0 (m : Mem) (bp s : Nat) (h : DSIZE ∣ s) :
    FTRP (PUT m (HDRP bp) (PACK s 0)) bp = bp + s - DSIZE := by
  rw [FTRP, GET_SIZE_PUT_pack0 m (HDRP bp) s h]

theorem FTRP_PUT_pack1 (m : Mem) (bp s : Nat) (h : DSIZE ∣ s) :
    FTRP (PUT m (HDRP bp) (PACK s 1)) bp = bp + s - DSIZE := by
  rw [FTRP, GET_SIZE_PUT_pack1 m (HDRP bp) s h]

/-! ## Structural facts about `coalesce` -/

/-- Every path of `coalesce` ends by inserting the resulting block at the
free-list head: afterwards `free_listp` is the returned pointer. -/
theorem coalesceT_free_listp (st : AState) (bp : Nat) :
    (coalesceT st bp).1.free_listp = (coalesceT st bp).2.1 := by
  rw [coalesceT]
  split
  · rfl
  split
  · rfl
  split
  · rfl
  split
  · rfl
  · rfl

/-- Every path of `coalesce` ends with the insertion event of the block it
returns. -/
theorem coalesceT_last_ins (st : AState) (bp : Nat) :
    (coalesceT st bp).2.2.getLast? = some (Ev.ins (coalesceT st bp).2.1) := by
  rw [coalesceT]
  split
  · rfl
  split
  · rfl
  split
  · rfl
  split
  · rfl
  · rfl

/-- The four-way case table of §4.6, written in the specification's
vocabulary: compare the allocation bits of the two neighbors; in each case
first remove the free neighbors, then widen (header first, footer placed by
the new size, via `spec_widen`), then insert the result at the head.  The
trace records removals, the widening tag stores, and the final insertion. -/
def coalesce_spec_table (st : AState) (bp : Nat) : AState × Nat × List Ev :=
  let m := st.mem
  let nb := NEXT_BLKP m bp
  let pb := PREV_BLKP m bp
  let na := GET_ALLOC m (HDRP nb)
  let pa := GET_ALLOC m (FTRP m pb)
  let s := GET_SIZE m (HDRP bp)
  let sn := GET_SIZE m (HDRP nb)
  let sp := GET_SIZE m (HDRP pb)
  if pa ≠ 0 ∧ na ≠ 0 then
    (insert_in_free_list st bp, bp, [.ins bp])
  else if pa ≠ 0 ∧ na = 0 then
    (insert_in_free_list (spec_widen (remove_from_free_list st nb) bp (s + sn)) bp, bp,
     [.rem nb, .put (HDRP bp) (PACK (s + sn) 0),
      .put (bp + (s + sn) - DSIZE) (PACK (s + sn) 0), .ins bp])
  else if pa = 0 ∧ na ≠ 0 then
    (insert_in_free_list (spec_widen (remove_from_free_list st pb) pb (s + sp)) pb, pb,
     [.rem pb, .put (HDRP pb) (PACK (s + sp) 0),
      .put (pb + (s + sp) - DSIZE) (PACK (s + sp) 0), .ins pb])
  else
    (insert_in_free_list
       (spec_widen (remove_from_free_list (remove_from_free_list st pb) nb) pb (s + sp + sn)) pb, pb,
     [.rem pb, .rem nb, .put (HDRP pb) (PACK (s + sp + sn) 0),
      .put (pb + (s + sp + sn) - DSIZE) (PACK (s + sp + sn) 0), .ins pb])

/-- C1: `coalesce(p)` performs the four-way case analysis of §4.6 on the
allocation bits of the forward neighbor's header and the backward
neighbor's footer — both allocated: insert `p`; next free: remove next,
widen `p` to the sum of the two sizes, insert `p`; prev free: remove prev,
widen prev, insert and return prev; both free: remove both neighbors,
widen prev over all three, insert and return prev.  The trace shows the
removals precede every widening store, the header store precedes the
footer store (whose address is derived from the widened size), and the
result is inserted at the free-list head (`free_listp` ends at the
returned pointer, and the last event is its insertion).  The two
hypotheses say that the removals of the both-free case do not overwrite
`p`'s own boundary tags, which the source relies on when it re-evaluates
`NEXT_BLKP(bp)` and `PREV_BLKP(bp)` after those removals. -/
theorem coalesce_four_cases (st : AState) (bp : Nat)
    (hnb : NEXT_BLKP (remove_from_free_list st (PREV_BLKP st.mem bp)).mem bp
             = NEXT_BLKP st.mem bp)
    (hpb : PREV_BLKP (remove_from_free_list
              (remove_from_free_list st (PREV_BLKP st.mem bp))
              (NEXT_BLKP (remove_from_free_list st (PREV_BLKP st.mem bp)).mem bp)).mem bp
             = PREV_BLKP st.mem bp) :
    coalesceT st bp = coalesce_spec_table st bp
      ∧ (coalesceT st bp).1.free_listp = (coalesceT st bp).2.1
      ∧ (coalesceT st bp).2.2.getLast? = some (Ev.ins (coalesceT st bp).2.1) := by
  refine ⟨?_, coalesceT_free_listp st bp, coalesceT_last_ins st bp⟩
  simp only [coalesceT, coalesce_spec_table, spec_widen]
  split_ifs with h1 h2 h3 h4
  · rfl
  · rw [FTRP_PUT_pack0 _ _ _ (dvd_add (DSIZE_dvd_GET_SIZE _ _) (DSIZE_dvd_GET_SIZE _ _))]
  · rw [FTRP_PUT_pack0 _ _ _ (dvd_add (DSIZE_dvd_GET_SIZE _ _) (DSIZE_dvd_GET_SIZE _ _))]
  · rw [hpb, hnb,
      FTRP_PUT_pack0 _ _ _
        (dvd_add (dvd_add (DSIZE_dvd_GET_SIZE _ _) (DSIZE_dvd_GET_SIZE _ _))
          (DSIZE_dvd_GET_SIZE _ _))]
  · tauto

/-- Witness for C1 at the freshly initialized heap and its single free
block (payload 848): both no-clobber hypotheses hold there. -/
theorem coalesce_four_cases_w :
    coalesceT stInit 848 = coalesce_spec_table stInit 848
      ∧ (coalesceT stInit 848).1.free_listp = (coalesceT stInit 848).2.1
      ∧ (coalesceT stInit 848).2.2.getLast? = some (Ev.ins (coalesceT stInit 848).2.1) :=
  coalesce_four_cases stInit 848 (by decide) (by decide)

/-- C5: whenever the `find_fit` walk terminates (enough fuel), its result
is `List.find?` of the size test over the chain of blocks reached from the
start by `next_link` links while the header allocation bit is `0`: the
first sufficiently large free block in list (LIFO) order, and the NULL
result exactly when an `alloc = 1` header (the prologue sentinel) is
reached before any block of size at least `asize`. -/
theorem find_fit_first_fit (m : Mem) (asize fuel bp : Nat) (r : Option Nat)
    (h : find_fit_aux m asize fuel bp = some r) :
    r = (free_chain m fuel bp).find? (fun b => decide (asize ≤ GET_SIZE m (HDRP b))) := by
  induction fuel generalizing bp with
  | zero => simp [find_fit_aux] at h
  | succ n ih =>
    rw [find_fit_aux] at h
    rw [free_chain]
    by_cases h0 : GET_ALLOC m (HDRP bp) = 0
    · rw [if_pos h0] at h
      rw [if_pos h0, List.find?_cons]
      by_cases hs : asize ≤ GET_SIZE m (HDRP bp)
      · rw [if_pos hs] at h
        cases h
        simp [hs]
      · rw [if_neg hs] at h
        simp only [decide_eq_true_eq, hs, if_neg]
        exact ih _ h
    · rw [if_neg h0] at h
      cases h
      rw [if_neg h0]
      rfl

/-- Witness for C5: on the freshly initialized heap, the walk from the
free-list head finds block 848 for an adjusted size of 128. -/
theorem find_fit_first_fit_w :
    (some 848 : Option Nat)
      = (free_chain stInit.mem 5 stInit.free_listp).find?
          (fun b => decide (128 ≤ GET_SIZE stInit.mem (HDRP b))) :=
  find_fit_first_fit stInit.mem 128 5 stInit.free_listp (some 848) (by decide)

theorem subW_of_le (a b : Nat) (hb : b ≤ a) (ha : a < 2 ^ 64) : subW a b = a - b := by
  unfold subW
  rw [Nat.mod_eq_of_lt (lt_of_le_of_lt hb ha)]
  have he : a + (2 ^ 64 - b) = 2 ^ 64 + (a - b) := by omega
  rw [he, Nat.add_mod_left]
  exact Nat.mod_eq_of_lt (by omega)

/-- The placement rule of §4.5, written in the specification's vocabulary:
for a free block of size `c ≥ a`, if `c − a ≥ 4W` then stamp allocated
tags of size `a` over `b` (header first), remove `b` from the free list,
stamp free tags of size `c − a` over the remainder `b + a`, and hand the
remainder to `coalesce`; otherwise stamp allocated tags of size `c` over
the whole block and remove it. -/
def place_spec_table (st : AState) (bp asize : Nat) : AState × List Ev :=
  let c := GET_SIZE st.mem (HDRP bp)
  if 4 * WSIZE ≤ c - asize then
    let stR := remove_from_free_list (spec_mark_alloc st bp asize) bp
    let stB := spec_mark_free stR (bp + asize) (c - asize)
    let r := coalesceT stB (bp + asize)
    (r.1, [.put (HDRP bp) (PACK asize 1), .put (bp + asize - DSIZE) (PACK asize 1), .rem bp,
           .put (HDRP (bp + asize)) (PACK (c - asize) 0),
           .put (bp + asize + (c - asize) - DSIZE) (PACK (c - asize) 0)] ++ r.2.2)
  else
    (remove_from_free_list (spec_mark_alloc st bp c) bp,
     [.put (HDRP bp) (PACK c 1), .put (bp + c - DSIZE) (PACK c 1), .rem bp])

/-- C2: `place(b, a)` on a free block of size `c ≥ a` follows §4.5: when
`c − a ≥ 4W` it writes the allocated tags of size `a` into `b` (before the
removal, as the trace order shows), removes `b`, writes free tags of size
`c − a` into the remainder `b + a`, and hands the remainder to `coalesce`,
whose final act is an insertion into the free list; otherwise it writes
allocated tags of size `c` over the whole block, removes `b`, and the
trace contains no insertion — no new free block is created.  The
hypothesis `hbp1` says the removal does not overwrite `b`'s freshly
written header, on which the source relies when it re-evaluates
`NEXT_BLKP(bp)` after `remove_from_free_list(bp)`. -/
theorem place_split_spec (st : AState) (bp asize : Nat)
    (ha : asize ≤ GET_SIZE st.mem (HDRP bp))
    (hc : GET_SIZE st.mem (HDRP bp) < 2 ^ 64)
    (hd : DSIZE ∣ asize)
    (hbp1 : NEXT_BLKP (remove_from_free_list (spec_mark_alloc st bp asize) bp).mem bp
              = bp + asize) :
    placeT st bp asize = place_spec_table st bp asize
      ∧ (if 4 * WSIZE ≤ GET_SIZE st.mem (HDRP bp) - asize
         then ∃ q, (placeT st bp asize).2.getLast? = some (Ev.ins q)
         else ∀ q, Ev.ins q ∉ (placeT st bp asize).2) := by
  have hsub : subW (GET_SIZE st.mem (HDRP bp)) asize = GET_SIZE st.mem (HDRP bp) - asize :=
    subW_of_le _ _ ha hc
  have heq : placeT st bp asize = place_spec_table st bp asize := by
    simp only [spec_mark_alloc] at hbp1
    have hdvd2 : DSIZE ∣ (GET_SIZE st.mem (HDRP bp) - asize) :=
      Nat.dvd_sub' (DSIZE_dvd_GET_SIZE _ _) hd
    simp only [placeT, place_spec_table, spec_mark_alloc, spec_mark_free, hsub]
    split_ifs with h1
    · simp only [FTRP_PUT_pack1 _ _ _ hd, hbp1, FTRP_PUT_pack0 _ _ _ hdvd2]
    · simp only [FTRP_PUT_pack1 _ _ _ (DSIZE_dvd_GET_SIZE st.mem (HDRP bp))]
  refine ⟨heq, ?_⟩
  rw [heq, place_spec_table]
  split_ifs with h1
  · simp only [h1, if_pos]
    refine ⟨(coalesceT (spec_mark_free
        (remove_from_free_list (spec_mark_alloc st bp asize) bp)
        (bp + asize) (GET_SIZE st.mem (HDRP bp) - asize)) (bp + asize)).2.1, ?_⟩
    have h2 := coalesceT_last_ins (spec_mark_free
        (remove_from_free_list (spec_mark_alloc st bp asize) bp)
        (bp + asize) (GET_SIZE st.mem (HDRP bp) - asize)) (bp + asize)
    have hne : (coalesceT (spec_mark_free
        (remove_from_free_list (spec_mark_alloc st bp asize) bp)
        (bp + asize) (GET_SIZE st.mem (HDRP bp) - asize)) (bp + asize)).2.2 ≠ [] := by
      intro h0
      rw [h0] at h2
      simp at h2
    rw [List.getLast?_append_of_ne_nil _ hne]
    exact h2
  · intro q
    simp

/-- Witness for C2 at the freshly initialized heap: block 848 of size
4096, adjusted request 128 (the split case). -/
theorem place_split_spec_w :
    placeT stInit 848 128 = place_spec_table stInit 848 128
      ∧ (if 4 * WSIZE ≤ GET_SIZE stInit.mem (HDRP 848) - 128
         then ∃ q, (placeT stInit 848 128).2.getLast? = some (Ev.ins q)
         else ∀ q, Ev.ins q ∉ (placeT stInit 848 128).2) :=
  place_split_spec stInit 848 128 (by decide) (by decide) (by decide) (by decide)

/-- C3, counterexample: the source tests `(int)size`, the low 32 bits of
the request reinterpreted as a signed `int`.  At `s = 2 ^ 32` (nonzero)
the cast is `0`, so `realloc` frees the block and returns NULL — the freed
block's allocation bit drops to `0` — although the claim reserves that
behavior for `s = 0` and says every `s > 0` proceeds to the reallocation
logic. -/
theorem realloc_intcast_cex :
    (2 ^ 32 : Nat) ≠ 0
      ∧ mm_realloc 10 stP 848 (2 ^ 32) = some (mm_free stP 848, 0)
      ∧ GET_ALLOC stP.mem (HDRP 848) = 1
      ∧ GET_ALLOC (mm_free stP 848).mem (HDRP 848) = 0 :=
  ⟨by norm_num, rfl, by decide, by decide⟩

/-- C3, amended: `mm_realloc(p, s)` frees `p` and returns NULL exactly when
`s ≡ 0 (mod 2 ^ 32)` (the `(int)size == 0` test), fails with NULL when the
low 32 bits of `s` are negative as a signed 32-bit integer
(`2 ^ 31 ≤ s % 2 ^ 32`), and otherwise proceeds to the reallocation logic
(`realloc_body`).  For `s < 2 ^ 31` this coincides with the claim. -/
theorem realloc_sign_branches (fuel : Nat) (st : AState) (bp s : Nat) :
    mm_realloc fuel st bp s =
      if 2 ^ 31 ≤ s % 2 ^ 32 then some (st, 0)
      else if s % 2 ^ 32 = 0 then some (mm_free st bp, 0)
      else realloc_body fuel st bp s := by
  have hlt : s % 2 ^ 32 < 2 ^ 32 := Nat.mod_lt _ (by norm_num)
  simp only [mm_realloc, toInt32]
  by_cases h1 : s % 2 ^ 32 < 2 ^ 31
  · simp only [h1, if_true, if_neg (by omega : ¬ 2 ^ 31 ≤ s % 2 ^ 32)]
    have hn : ¬ ((s % 2 ^ 32 : Nat) : Int) < 0 := by omega
    rw [if_neg hn]
    by_cases h2 : s % 2 ^ 32 = 0
    · have hz : ((s % 2 ^ 32 : Nat) : Int) = 0 := by exact_mod_cast h2
      rw [if_pos hz, if_pos h2]
    · have hz : ¬ ((s % 2 ^ 32 : Nat) : Int) = 0 := by exact_mod_cast h2
      rw [if_neg hz, if_neg h2,
        if_pos (Nat.pos_of_ne_zero (fun h0 => h2 (by simp [h0])))]
  · simp only [h1, if_false, if_pos (by omega : 2 ^ 31 ≤ s % 2 ^ 32)]
    have hneg : ((s % 2 ^ 32 : Nat) : Int) - 2 ^ 32 < 0 := by
      have hc : ((s % 2 ^ 32 : Nat) : Int) < 2 ^ 32 := by exact_mod_cast hlt
      omega
    rw [if_pos hneg]

theorem adjust_sub_DSIZE_le (old : Nat) (h16 : DSIZE ∣ old) (h32 : 2 * DSIZE ≤ old)
    (hlt : old < 2 ^ 64) : adjust (old - DSIZE) ≤ old := by
  have hle : old ≤ 2 ^ 64 - DSIZE := by
    obtain ⟨k, rfl⟩ := h16
    have hk : k < 2 ^ 60 := by
      by_contra hk
      push_neg at hk
      have : 2 ^ 64 ≤ DSIZE * k :=
        le_trans (by norm_num [DSIZE, WSIZE]) (Nat.mul_le_mul_left DSIZE hk)
      omega
    calc DSIZE * k ≤ DSIZE * (2 ^ 60 - 1) := Nat.mul_le_mul_left DSIZE (by omega)
      _ ≤ 2 ^ 64 - DSIZE := by norm_num [DSIZE, WSIZE]
  rw [adjust]
  by_cases h1 : old - DSIZE ≤ DSIZE
  · rw [if_pos h1]
    omega
  · rw [if_neg h1]
    have he : old - DSIZE + DSIZE + (DSIZE - 1) = old + (DSIZE - 1) := by omega
    rw [he, Nat.mod_eq_of_lt (by omega)]
    obtain ⟨k, rfl⟩ := h16
    have hd : (DSIZE * k + (DSIZE - 1)) / DSIZE = k := by
      rw [Nat.mul_add_div (by decide : 0 < DSIZE)]
      simp [Nat.div_eq_of_lt (by decide : DSIZE - 1 < DSIZE)]
    rw [hd, Nat.mul_comm]

/-- C6, counterexample: `realloc(p, size(p))` need not return `p`.  In
`stQ`, block 848 has size 128 and an allocated forward neighbor; the
adjusted size of a 128-byte request is 144 > 128, so the source takes the
allocate-copy-free path and returns the fresh block 1104 ≠ 848. -/
theorem realloc_same_size_cex :
    GET_SIZE stQ.mem (HDRP 848) = 128
      ∧ GET_ALLOC stQ.mem (HDRP 848) = 1
      ∧ (mm_realloc 10 stQ 848 128).map (fun r => r.2) = some 1104
      ∧ (1104 : Nat) ≠ 848 :=
  ⟨by decide, by decide, by decide, by decide⟩

/-- C6, amended: for `p ≠ 0` and `0 < s < 2 ^ 31`: if the adjusted size
fits the current block (`adjust s ≤ size(p)`) then `realloc` returns `p`
with the state untouched (no split, no list mutation); if it does not fit
but the forward neighbor is free and `size(p) + size(next) ≥ adjust s`,
`realloc` removes the neighbor from the free list, widens `p`'s header and
footer to the combined size marked allocated (header first), and returns
`p` without splitting; and — replacing the false `realloc(p, size(p)) = p`
of the claim — `realloc(p, size(p) - D)` returns `p` unchanged, since
`adjust (size(p) - D) ≤ size(p)`. -/
theorem realloc_inplace_spec (fuel : Nat) (st : AState) (bp s : Nat)
    (hbp : bp ≠ 0) (hs0 : 0 < s) (hs31 : s < 2 ^ 31) :
    (adjust s ≤ GET_SIZE st.mem (HDRP bp) →
        mm_realloc fuel st bp s = some (st, bp))
      ∧ (GET_SIZE st.mem (HDRP bp) < adjust s →
          GET_ALLOC st.mem (HDRP (NEXT_BLKP st.mem bp)) = 0 →
          adjust s ≤ GET_SIZE st.mem (HDRP bp) + GET_SIZE st.mem (HDRP (NEXT_BLKP st.mem bp)) →
          mm_realloc fuel st bp s =
            some (spec_mark_alloc (remove_from_free_list st (NEXT_BLKP st.mem bp)) bp
                    (GET_SIZE st.mem (HDRP bp) + GET_SIZE st.mem (HDRP (NEXT_BLKP st.mem bp))), bp))
      ∧ (s = GET_SIZE st.mem (HDRP bp) - DSIZE → 2 * DSIZE ≤ GET_SIZE st.mem (HDRP bp) →
          GET_SIZE st.mem (HDRP bp) < 2 ^ 64 →
          mm_realloc fuel st bp s = some (st, bp)) := by
  have hmod : s % 2 ^ 32 = s := Nat.mod_eq_of_lt (by omega)
  have hbody : mm_realloc fuel st bp s = realloc_body fuel st bp s := by
    simp only [mm_realloc, toInt32, hmod]
    rw [if_pos hs31, if_neg (by exact_mod_cast Int.not_lt.mpr (Int.natCast_nonneg s)),
      if_neg (by exact_mod_cast Nat.pos_iff_ne_zero.mp hs0), if_pos hs0]
  refine ⟨?_, ?_, ?_⟩
  · intro hfit
    rw [hbody, realloc_body, if_neg hbp, if_pos hfit]
  · intro hbig hfree hcs
    rw [hbody, realloc_body, if_neg hbp, if_neg (not_le.mpr hbig), if_pos ⟨hfree, hcs⟩]
    have hdvd : DSIZE ∣ (GET_SIZE st.mem (HDRP bp) + GET_SIZE st.mem (HDRP (NEXT_BLKP st.mem bp))) :=
      dvd_add (DSIZE_dvd_GET_SIZE _ _) (DSIZE_dvd_GET_SIZE _ _)
    simp only [spec_mark_alloc, FTRP_PUT_pack1 _ _ _ hdvd]
  · intro hseq h32 hlt64
    have hfit : adjust s ≤ GET_SIZE st.mem (HDRP bp) := by
      rw [hseq]
      exact adjust_sub_DSIZE_le _ (DSIZE_dvd_GET_SIZE _ _) h32 hlt64
    rw [hbody, realloc_body, if_neg hbp, if_pos hfit]

/-- Witness for C6 at `stQ`, block 848 (size 128), request 100
(adjusted size 128 ≤ 128: the return-unchanged path). -/
theorem realloc_inplace_spec_w :
    (adjust 100 ≤ GET_SIZE stQ.mem (HDRP 848) →
        mm_realloc 10 stQ 848 100 = some (stQ, 848))
      ∧ (GET_SIZE stQ.mem (HDRP 848) < adjust 100 →
          GET_ALLOC stQ.mem (HDRP (NEXT_BLKP stQ.mem 848)) = 0 →
          adjust 100 ≤ GET_SIZE stQ.mem (HDRP 848) + GET_SIZE stQ.mem (HDRP (NEXT_BLKP stQ.mem 848)) →
          mm_realloc 10 stQ 848 100 =
            some (spec_mark_alloc (remove_from_free_list stQ (NEXT_BLKP stQ.mem 848)) 848
                    (GET_SIZE stQ.mem (HDRP 848) + GET_SIZE stQ.mem (HDRP (NEXT_BLKP stQ.mem 848))), 848))
      ∧ (100 = GET_SIZE stQ.mem (HDRP 848) - DSIZE → 2 * DSIZE ≤ GET_SIZE stQ.mem (HDRP 848) →
          GET_SIZE stQ.mem (HDRP 848) < 2 ^ 64 →
          mm_realloc 10 stQ 848 100 = some (stQ, 848)) :=
  realloc_inplace_spec 10 stQ 848 100 (by decide) (by decide) (by decide)

/-- C8, counterexample: the adjusted-size computation is `size_t`
arithmetic.  At `s = 2 ^ 64 - 16` the sum `s + 31` wraps, the source
computes adjusted size `0`, while the claim's formula
`D * ⌈(s + D) / D⌉ = D * ((s + D + (D-1)) / D)` gives `2 ^ 64`, and the
claimed lower bound `2D` fails. -/
theorem adjust_overflow_cex :
    (0 : Nat) < 2 ^ 64 - 16
      ∧ adjust (2 ^ 64 - 16) = 0
      ∧ DSIZE * ((2 ^ 64 - 16 + DSIZE + (DSIZE - 1)) / DSIZE) = 2 ^ 64
      ∧ adjust (2 ^ 64 - 16) ≠ DSIZE * ((2 ^ 64 - 16 + DSIZE + (DSIZE - 1)) / DSIZE)
      ∧ ¬ 2 * DSIZE ≤ adjust (2 ^ 64 - 16) :=
  ⟨by norm_num, by decide, by decide, by decide, by decide⟩

/-- C8, amended: for every request `0 < s` with `s + 31 < 2 ^ 64` (no
`size_t` wrap), the adjusted size equals `2D` when `s ≤ D` and
`D * ⌈(s + D) / D⌉ = D * ((s + D + (D - 1)) / D)` in general; it is a
multiple of `D` and at least `2D = 4W`. -/
theorem adjust_formula (s : Nat) (h0 : 0 < s) (hlt : s + 31 < 2 ^ 64) :
    adjust s = DSIZE * ((s + DSIZE + (DSIZE - 1)) / DSIZE)
      ∧ (s ≤ DSIZE → adjust s = 2 * DSIZE)
      ∧ DSIZE ∣ adjust s
      ∧ 2 * DSIZE ≤ adjust s := by
  have hmain : adjust s = DSIZE * ((s + DSIZE + (DSIZE - 1)) / DSIZE) := by
    rw [adjust]
    by_cases h1 : s ≤ DSIZE
    · rw [if_pos h1]
      have h16 : s ≤ 16 := by simpa [DSIZE, WSIZE] using h1
      interval_cases s <;> decide
    · rw [if_neg h1, Nat.mod_eq_of_lt (by simp only [DSIZE, WSIZE]; omega)]
  refine ⟨hmain, ?_, ?_, ?_⟩
  · intro h1
    rw [adjust, if_pos h1]
  · rw [hmain]
    exact Dvd.intro _ rfl
  · rw [adjust]
    by_cases h1 : s ≤ DSIZE
    · rw [if_pos h1]
    · rw [if_neg h1]
      have h17 : DSIZE < s := not_le.mp h1
      have h3 : 2 ≤ (s + DSIZE + (DSIZE - 1)) % 2 ^ 64 / DSIZE := by
        rw [Nat.mod_eq_of_lt (by simp only [DSIZE, WSIZE]; omega)]
        rw [Nat.le_div_iff_mul_le (by decide : 0 < DSIZE)]
        simp only [DSIZE, WSIZE] at h17 ⊢
        omega
      calc 2 * DSIZE = DSIZE * 2 := Nat.mul_comm _ _
        _ ≤ DSIZE * ((s + DSIZE + (DSIZE - 1)) % 2 ^ 64 / DSIZE) := Nat.mul_le_mul_left DSIZE h3

/-- Witness for C8 at `s = 100`: adjusted size `128`. -/
theorem adjust_formula_w :
    adjust 100 = DSIZE * ((100 + DSIZE + (DSIZE - 1)) / DSIZE)
      ∧ (100 ≤ DSIZE → adjust 100 = 2 * DSIZE)
      ∧ DSIZE ∣ adjust 100
      ∧ 2 * DSIZE ≤ adjust 100 :=
  adjust_formula 100 (by decide) (by decide)

/-- C4: on `stP` (heap exhausted, block 848 of size 128 allocated), the
request `realloc(848, 8000)` takes the out-of-place path and the internal
`malloc` fails (returns NULL) — yet the source, lacking the null check the
claim describes, copies the old block's words to address `0 + …` (the NULL
destination), frees block 848, and returns NULL: the allocation bit of 848
drops to `0` and the word at address 8 changes from `0` to the copied
value `816`.  The claim says that on a NULL `malloc` nothing is copied and
`p` stays allocated. -/
theorem realloc_oom_eval :
    (mm_malloc 12 stP 8000).map (fun x => x.2) = some 0
      ∧ (mm_realloc 12 stP 848 8000).map (fun x => x.2) = some 0
      ∧ GET_ALLOC stP.mem (HDRP 848) = 1
      ∧ GET_ALLOC ((mm_realloc 12 stP 848 8000).getD (stP, 0)).1.mem (HDRP 848) = 0
      ∧ stP.mem 8 = 0
      ∧ stP.mem 856 = 816
      ∧ ((mm_realloc 12 stP 848 8000).getD (stP, 0)).1.mem 8 = 816 :=
  ⟨by decide, by decide, by decide, by decide, by decide, by decide, by decide⟩

/-- C9: on the freshly initialized heap, the single free block 848 has
both heap neighbors allocated according to their boundary tags (prologue
header and epilogue header both carry `alloc = 1`), so the claim's checker
— which reads the neighbors' boundary tags — reports nothing; but the
source's free-list pass reads `GET_ALLOC(PREV_BLKP(bp))` and
`GET_ALLOC(NEXT_BLKP(bp))`, the neighbors' *payload* words (here the
prologue's `prev`-link slot, which `insert_in_free_list` set to 848, an
even value), and emits a spurious "escaped coalescing" diagnostic. -/
theorem checkheap_payload_read_bug :
    GET_ALLOC stInit.mem (HDRP (PREV_BLKP stInit.mem 848)) = 1
      ∧ GET_ALLOC stInit.mem (HDRP (NEXT_BLKP stInit.mem 848)) = 1
      ∧ GET_ALLOC stInit.mem (PREV_BLKP stInit.mem 848) = 0
      ∧ GET_PREV_PTR stInit.mem (PREV_BLKP stInit.mem 848) = 848
      ∧ Diag.escapedCoalescing 848 ∈ checkFreeListPass stInit 10 :=
  ⟨by decide, by decide, by decide, by decide, by decide⟩

/-! ## Frame lemmas for `mm_free` (C10) -/

/-- The non-memory, non-free-list components of the state: heap bounds,
capacity, prologue cursor, and the count of heap-extension requests. -/
def scalars (st : AState) : Nat × Nat × Nat × Nat × Nat :=
  (st.lo, st.brk, st.maxHeap, st.heap_listp, st.extensions)

theorem PUT_frame (m : Mem) (p v a : Nat) (h : a ≠ p) : PUT m p v a = m a := by
  simp [PUT, h]

theorem insert_frame (st : AState) (bp a : Nat) (h : a ∉ insert_writes st bp) :
    (insert_in_free_list st bp).mem a = st.mem a
      ∧ scalars (insert_in_free_list st bp) = scalars st := by
  simp only [insert_writes, List.mem_cons, List.not_mem_nil, or_false, not_or] at h
  obtain ⟨h1, h2, h3⟩ := h
  refine ⟨?_, rfl⟩
  simp only [insert_in_free_list]
  rw [PUT_frame _ _ _ _ h3, PUT_frame _ _ _ _ h2, PUT_frame _ _ _ _ h1]

theorem remove_frame (st : AState) (bp a : Nat) (h : a ∉ remove_writes st bp) :
    (remove_from_free_list st bp).mem a = st.mem a
      ∧ scalars (remove_from_free_list st bp) = scalars st := by
  by_cases hp : GET_PREV_PTR st.mem bp ≠ 0
  · simp only [remove_writes, remove_from_free_list, scalars, if_pos hp] at h ⊢
    simp only [List.cons_append, List.nil_append, List.mem_cons,
      List.not_mem_nil, or_false, not_or] at h
    obtain ⟨h1, h2⟩ := h
    exact ⟨by rw [PUT_frame _ _ _ _ h2, PUT_frame _ _ _ _ h1], trivial⟩
  · simp only [remove_writes, remove_from_free_list, scalars, if_neg hp] at h ⊢
    simp only [List.nil_append, List.mem_cons, List.not_mem_nil, or_false] at h
    exact ⟨by rw [PUT_frame _ _ _ _ h], trivial⟩

theorem coalesceT_frame (st : AState) (bp a : Nat) (h : a ∉ coalesce_writes st bp) :
    (coalesceT st bp).1.mem a = st.mem a
      ∧ scalars (coalesceT st bp).1 = scalars st := by
  rw [coalesceT]
  rw [coalesce_writes] at h
  split_ifs at h ⊢
  · exact insert_frame st bp a h
  · simp only [List.append_assoc, List.mem_append, List.mem_cons,
      List.not_mem_nil, or_false, not_or] at h
    obtain ⟨hrem, ⟨hh, hf⟩, hins⟩ := h
    refine ⟨Eq.trans (insert_frame _ bp a hins).1 ?_,
      Eq.trans (insert_frame _ bp a hins).2 (remove_frame _ _ a hrem).2⟩
    change PUT _ _ _ a = _
    rw [PUT_frame _ _ _ _ hf]
    change PUT _ _ _ a = _
    rw [PUT_frame _ _ _ _ hh]
    exact (remove_frame _ _ a hrem).1
  · simp only [List.append_assoc, List.mem_append, List.mem_cons,
      List.not_mem_nil, or_false, not_or] at h
    obtain ⟨hrem, ⟨hh, hf⟩, hins⟩ := h
    refine ⟨Eq.trans (insert_frame _ _ a hins).1 ?_,
      Eq.trans (insert_frame _ _ a hins).2 (remove_frame _ _ a hrem).2⟩
    change PUT _ _ _ a = _
    rw [PUT_frame _ _ _ _ hf]
    change PUT _ _ _ a = _
    rw [PUT_frame _ _ _ _ hh]
    exact (remove_frame _ _ a hrem).1
  · simp only [List.append_assoc, List.mem_append, List.mem_cons,
      List.not_mem_nil, or_false, not_or] at h
    obtain ⟨hrem1, hrem2, ⟨hh, hf⟩, hins⟩ := h
    refine ⟨Eq.trans (insert_frame _ _ a hins).1 ?_,
      Eq.trans (insert_frame _ _ a hins).2
        (Eq.trans (remove_frame _ _ a hrem2).2 (remove_frame _ _ a hrem1).2)⟩
    change PUT _ _ _ a = _
    rw [PUT_frame _ _ _ _ hf]
    change PUT _ _ _ a = _
    rw [PUT_frame _ _ _ _ hh]
    exact Eq.trans (remove_frame _ _ a hrem2).1 (remove_frame _ _ a hrem1).1
  · exact insert_frame st bp a h

/-- C10: `mm_free(p)` for `p ≠ 0` requests no heap extension and changes
nothing outside its write footprint: the heap bounds (`lo`, `brk`), the
capacity, the prologue cursor and the extension-request count are all
unchanged, and every address outside `mm_free_writes st p` — which, by its
definition, consists solely of the boundary tags of the merged region
(`p`'s own tags and the widened header/footer) and free-list link words of
the affected blocks (the removed neighbors' list predecessor and
successor, and the inserted block and old list head) — holds its old
word.  Only those link words and the free-list head pointer change
besides the merged region's tags. -/
theorem free_frame (st : AState) (bp a : Nat) (hbp : bp ≠ 0)
    (ha : a ∉ mm_free_writes st bp) :
    (mm_free st bp).brk = st.brk
      ∧ (mm_free st bp).lo = st.lo
      ∧ (mm_free st bp).maxHeap = st.maxHeap
      ∧ (mm_free st bp).extensions = st.extensions
      ∧ (mm_free st bp).heap_listp = st.heap_listp
      ∧ (mm_free st bp).mem a = st.mem a := by
  rw [mm_free, if_neg hbp]
  rw [mm_free_writes, if_neg hbp] at ha
  simp only [List.cons_append, List.nil_append, List.mem_cons, not_or] at ha
  obtain ⟨hh, hf, hco⟩ := ha
  have hc := coalesceT_frame _ bp a hco
  refine ⟨congrArg (fun t => t.2.1) hc.2, congrArg (fun t => t.1) hc.2,
    congrArg (fun t => t.2.2.1) hc.2, congrArg (fun t => t.2.2.2.2) hc.2,
    congrArg (fun t => t.2.2.2.1) hc.2, ?_⟩
  refine Eq.trans hc.1 ?_
  change PUT _ _ _ a = _
  rw [PUT_frame _ _ _ _ hf]
  change PUT _ _ _ a = _
  rw [PUT_frame _ _ _ _ hh]

/-- Witness for C10: freeing block 848 of `stP` leaves the word at
address 8 (and the bounds and extension count) untouched. -/
theorem free_frame_w :
    (mm_free stP 848).brk = stP.brk
      ∧ (mm_free stP 848).lo = stP.lo
      ∧ (mm_free stP 848).maxHeap = stP.maxHeap
      ∧ (mm_free stP 848).extensions = stP.extensions
      ∧ (mm_free stP 848).heap_listp = stP.heap_listp
      ∧ (mm_free stP 848).mem 8 = stP.mem 8 :=
  free_frame stP 848 8 (by decide) (by decide)

end MM
